import Mathlib

/-!
Verification development for the OnsenRAG retrieval pipeline
(`src/RAG/src/onsen_rag.py`).

Modelling conventions (shallow embedding):
* Python floats carrying relevance scores, weights and timestamps are
  modelled as exact rationals `ℚ`; every claim under study concerns
  comparisons, clamping, or affine combinations that the code performs
  exactly the same way on any ordered field.
* Python `dict` / `OrderedDict` are modelled as insertion-ordered
  association lists (`pyAssign` updates in place, `pyLookup` finds the
  binding, `pyDelete` removes it, `moveToEnd` reorders), matching
  CPython's insertion-order semantics.
* Python's `sorted(..., key=f, reverse=True)` is a stable descending
  sort; it is modelled by `List.insertionSort` with the relation
  `fun a b => f b ≤ f a`, which is the unique stable sort for that
  preorder (`orderedInsert` places an element before later elements
  with an equal key).
* External capabilities (Chroma vector search, the BM25 retrievers,
  the CrossEncoder, the two LLM calls, `float()` literal parsing,
  `time.time()`, and the regex answer post-processing
  `_strip_chunk_ids`) are oracle parameters collected in `Oracles`;
  the pipeline logic under verification is deterministic in them.
-/

/-- Python substring test `pat in s`, on the character lists. -/
def strContains (s pat : String) : Bool :=
  decide (pat.toList <:+: s.toList)

/-- Whitespace characters stripped by Python `str.strip()` (ASCII subset). -/
def isPySpace (c : Char) : Bool :=
  c = ' ' || c = '\t' || c = '\n' || c = '\r' || c = '\x0b' || c = '\x0c'

/-- Python `str.strip()`: drop leading and trailing whitespace. -/
def pyStrip (s : String) : String :=
  String.mk (((s.toList.dropWhile isPySpace).reverse.dropWhile isPySpace).reverse)

/-- Python `str.split(sep)` for a one-character separator (the code only
splits on `":"` and `"\n"`). -/
def pySplitOn (sep : Char) (s : String) : List String :=
  (s.toList.splitOn sep).map String.mk

/-- Python `str.replace(old, new)` for one-character `old` and `new` (the
code only replaces `"."` by `"_"`). -/
def pyReplaceChar (old new : Char) (s : String) : String :=
  String.mk (s.toList.map (fun c => if c = old then new else c))

/-- Python `dict` lookup `d.get(k)` on an insertion-ordered association list. -/
def pyLookup {β : Type} : List (String × β) → String → Option β
  | [], _ => none
  | p :: rest, k => if p.1 = k then some p.2 else pyLookup rest k

/-- Python `dict` assignment `d[k] = v`: an existing key keeps its position,
a new key is appended at the end. -/
def pyAssign {β : Type} : List (String × β) → String → β → List (String × β)
  | [], k, v => [(k, v)]
  | p :: rest, k, v => if p.1 = k then (k, v) :: rest else p :: pyAssign rest k v

/-- Python `del d[k]`: removes the binding of `k`. -/
def pyDelete {β : Type} : List (String × β) → String → List (String × β)
  | [], _ => []
  | p :: rest, k => if p.1 = k then rest else p :: pyDelete rest k

/-- Python `OrderedDict.move_to_end(k)`: the binding of `k` moves to the back. -/
def moveToEnd {β : Type} (d : List (String × β)) (k : String) : List (String × β) :=
  match pyLookup d k with
  | none => d
  | some v => pyDelete d k ++ [(k, v)]

/-- The `LOCATION_KEYWORDS` table of `onsen_rag.py`: location tag to the
keyword strings that trigger its detection. -/
def LOCATION_KEYWORDS : List (String × List String) :=
  [("kusatsu", ["草津"]), ("hakone", ["箱根"]), ("beppu", ["別府"]), ("arima", ["有馬"])]

/-- The `detected` list built by `OnsenRAG._detect_location`: every location
of the table one of whose keywords occurs as a substring of the question. -/
def detectedLocations (question : String) : List String :=
  (LOCATION_KEYWORDS.filter (fun p => p.2.any (fun kw => strContains question kw))).map
    (fun p => p.1)

/-- `OnsenRAG._detect_location`: returns the detected tag when exactly one
location matched, `none` otherwise. -/
def detectLocation (question : String) : Option String :=
  let detected := detectedLocations question
  if detected.length = 1 then detected.head? else none


/-- A langchain `Document` as the pipeline uses it: the chunk text plus the
metadata keys the retrieval logic reads.  `none` models an absent metadata
key (the plain-text loader produces documents without `chunk_id`,
`source` or `location` keys; the JSON loader always sets all of them). -/
structure Document where
  page_content : String
  chunk_id : Option String
  source : Option String
  location : Option String
deriving DecidableEq, Repr

instance : Inhabited Document := ⟨⟨"", none, none, none⟩⟩

/-- A value stored in the result dict that `OnsenRAG.query` returns.  The
`nums` constructor exists so that the presence or absence of a numeric
score list in the output is expressible. -/
inductive PyValue where
  | str : String → PyValue
  | docs : List Document → PyValue
  | strs : List String → PyValue
  | nums : List ℚ → PyValue
deriving DecidableEq, Repr

/-- Discriminator for `PyValue.nums`. -/
def isNums : PyValue → Bool
  | PyValue.nums _ => true
  | _ => false

/-- The Python dict `query` returns. -/
abbrev PyDict := List (String × PyValue)

/-- One entry of the query cache: the stored result and the insertion
timestamp taken from `time.time()`. -/
structure CacheEntry (β : Type) where
  result : β
  timestamp : ℚ
deriving DecidableEq, Repr

/-- The `_query_cache` `OrderedDict`: front = least recently used. -/
abbrev Cache (β : Type) := List (String × CacheEntry β)

/-- Field `_cache_maxsize` of `OnsenRAG.__init__`. -/
def cacheMaxsize : Nat := 128

/-- Field `_cache_ttl` of `OnsenRAG.__init__` (seconds). -/
def cacheTtl : ℚ := 300

/-- `OnsenRAG._get_from_cache`: miss on absent key; an entry older than the
TTL (strictly, `now - timestamp > ttl`) is deleted and reported as a miss;
a hit moves the entry to most-recently-used and returns the stored result.
Returns the result (if any) together with the updated cache. -/
def getFromCache {β : Type} (cache : Cache β) (key : String) (now : ℚ) :
    Option β × Cache β :=
  match pyLookup cache key with
  | none => (none, cache)
  | some entry =>
    if cacheTtl < now - entry.timestamp then (none, pyDelete cache key)
    else (some entry.result, moveToEnd cache key)

/-- `OnsenRAG._put_to_cache`: when the cache is at capacity the front
(least-recently-used) entry is popped (`popitem(last=False)`) before the
new entry is inserted. -/
def putToCache {β : Type} (cache : Cache β) (key : String) (result : β) (now : ℚ) :
    Cache β :=
  let cache' := if cacheMaxsize ≤ cache.length then cache.tail else cache
  pyAssign cache' key ⟨result, now⟩

/-- A query-cache operation, for stating the invariant over arbitrary
operation sequences. -/
inductive CacheOp (β : Type) where
  | get : String → ℚ → CacheOp β
  | put : String → β → ℚ → CacheOp β

/-- Effect of one cache operation on the cache state. -/
def runOp {β : Type} (cache : Cache β) : CacheOp β → Cache β
  | CacheOp.get key now => (getFromCache cache key now).2
  | CacheOp.put key r now => putToCache cache key r now

/-- Effect of a sequence of cache operations. -/
def runOps {β : Type} (cache : Cache β) (ops : List (CacheOp β)) : Cache β :=
  ops.foldl runOp cache

/-- `OnsenRAG._cache_key`: the key is derived deterministically from the
question text and `k`.  The md5 hashing of the keyed string is not
re-implemented; the key is modelled by the hashed string itself, which
determines the md5 value. -/
def cacheKey (question : String) (k : Nat) : String :=
  question ++ "::" ++ toString k

/-- Pipeline configuration fixed in `OnsenRAG.__init__`:
`semantic_weight` (default `0.5`), `initial_k` (default `10`) and
`final_k` (default `3`). -/
structure Config where
  semantic_weight : ℚ
  initial_k : Nat
  final_k : Nat

/-- Field `keyword_weight` of `OnsenRAG.__init__`: `1.0 - semantic_weight`,
so the two fusion weights sum to `1`. -/
def keywordWeight (semantic_weight : ℚ) : ℚ := 1 - semantic_weight

/-- External capabilities consumed by the pipeline, as black-box oracles:
Chroma semantic retrieval (question, `k`, location filter), the cached
per-location and whole-corpus BM25 retrievers (absent retrievers are
modelled as returning `[]`, which is observationally what the skipped
`invoke` produces), the CrossEncoder pair scorer, the judgment LLM call
(`none` models the call raising), Python `float()` literal parsing, the
answer LLM call, the regex answer post-processing `_strip_chunk_ids`, and
`time.time()`. -/
structure Oracles where
  semanticSearch : String → Nat → Option String → List Document
  bm25Loc : String → String → List Document
  bm25All : String → List Document
  bm25Built : Bool
  ce : String → String → ℚ
  llmJudge : String → String → Option String
  parseFloat : String → Option ℚ
  llmAnswer : String → String → String
  stripIds : String → String
  now : ℚ

/-- `OnsenRAG._rerank` with `top_k=None`: pair every document with its
CrossEncoder score and sort by score, descending and stable. -/
def rerank (o : Oracles) (question : String) (documents : List Document) :
    List (Document × ℚ) :=
  List.insertionSort (fun a b => b.2 ≤ a.2)
    (documents.map (fun d => (d, o.ce question d.page_content)))

/-- The candidate identifier used by `_llm_extract_candidates`:
`doc.metadata.get("chunk_id", f"doc_{i+1}")`. -/
def cidOf (d : Document) (i : Nat) : String :=
  d.chunk_id.getD ("doc_" ++ toString (i + 1))

/-- The `candidates_text` accumulated by `_llm_extract_candidates`:
identifier plus content truncated to 300 characters, per candidate. -/
def candidatesText (scored : List (Document × ℚ)) : String :=
  (String.join ((scored.enum.map (fun q =>
    "\n[" ++ cidOf q.2.1 q.1 ++ "]\n" ++ q.2.1.page_content.take 300 ++ "\n"))))

/-- The `doc_map` of `_llm_extract_candidates`: identifier to
`(Document, CE score)`, in insertion order with Python-dict overwrite. -/
def docMapOf (scored : List (Document × ℚ)) : List (String × (Document × ℚ)) :=
  scored.enum.foldl (fun m q => pyAssign m (cidOf q.2.1 q.1) q.2) []

/-- Parse of one line of the judgment response: strip, require a colon,
split at the last colon (`rsplit(":", 1)`), strip the identifier, parse
the score with `float()` and clamp it to `[0, 10]`.  `none` models the
`continue` branches. -/
def parseLine (pf : String → Option ℚ) (line0 : String) : Option (String × ℚ) :=
  let line := pyStrip line0
  let parts := pySplitOn ':' line
  if parts.length < 2 then none
  else
    match pf (pyStrip ((parts.getLast?).getD "")) with
    | none => none
    | some v => some (pyStrip (String.intercalate ":" parts.dropLast), max 0 (min 10 v))

/-- The `llm_scores` dict of `_llm_extract_candidates`: fold the parseable
lines of the stripped response into a dict, later lines overwriting. -/
def parseLLMScores (pf : String → Option ℚ) (response : String) : List (String × ℚ) :=
  (pySplitOn '\n' (pyStrip response)).foldl
    (fun m line =>
      match parseLine pf line with
      | some p => pyAssign m p.1 p.2
      | none => m)
    []

/-- The `results` list of `_llm_extract_candidates`: every `doc_map` entry
becomes `(Document, CE score, LLM score)`, an identifier absent from the
parsed scores defaulting to `0`. -/
def llmScoresJoin (m : List (String × ℚ)) (dmap : List (String × (Document × ℚ))) :
    List (Document × ℚ × ℚ) :=
  dmap.map (fun q => (q.2.1, q.2.2, (pyLookup m q.1).getD 0))

/-- `OnsenRAG._llm_extract_candidates`: on a failed judgment call, fall back
to the first `top_k` scored candidates with LLM score `0`; otherwise parse
the response, join the scores and keep the `top_k` best by LLM score
(stable descending sort). -/
def llmExtractCandidates (o : Oracles) (question : String)
    (scored : List (Document × ℚ)) (top_k : Nat) : List (Document × ℚ × ℚ) :=
  if scored = [] then []
  else
    match o.llmJudge question (candidatesText scored) with
    | none => (scored.take top_k).map (fun p => (p.1, p.2, 0))
    | some response =>
      let m := parseLLMScores o.parseFloat response
      let results := llmScoresJoin m (docMapOf scored)
      (List.insertionSort (fun a b => b.2.2 ≤ a.2.2) results).take top_k

/-- Class constant `CONFIDENCE_THRESHOLD` of `OnsenRAG` (`-3.0`). -/
def CONFIDENCE_THRESHOLD : ℚ := -3

/-- The confidence gate of `OnsenRAG._final_selection`: keep exactly the
candidates whose CrossEncoder score is `>= CONFIDENCE_THRESHOLD`. -/
def confGate (candidates : List (Document × ℚ × ℚ)) : List (Document × ℚ × ℚ) :=
  candidates.filter (fun c => decide (CONFIDENCE_THRESHOLD ≤ c.2.1))

/-- Python `min` of a nonempty list (`0` on `[]`, never reached). -/
def pyMin : List ℚ → ℚ
  | [] => 0
  | x :: xs => xs.foldl min x

/-- Python `max` of a nonempty list (`0` on `[]`, never reached). -/
def pyMax : List ℚ → ℚ
  | [] => 0
  | x :: xs => xs.foldl max x

/-- `OnsenRAG._final_selection`: confidence gate, min–max normalisation of
the CrossEncoder scores over the survivors (range `1` when degenerate),
LLM score divided by `10`, weighted combination, stable descending sort by
the combined score, truncation to `top_k`, and projection to documents. -/
def finalSelection (candidates : List (Document × ℚ × ℚ)) (top_k : Nat)
    (ce_weight llm_weight : ℚ) : List Document :=
  if candidates = [] then []
  else
    let confident := confGate candidates
    if confident = [] then []
    else
      let ce_scores := confident.map (fun c => c.2.1)
      let ce_min := pyMin ce_scores
      let ce_max := pyMax ce_scores
      let ce_range := if ce_max ≠ ce_min then ce_max - ce_min else 1
      let final_scored := confident.map
        (fun c => (c, ce_weight * ((c.2.1 - ce_min) / ce_range) + llm_weight * (c.2.2 / 10)))
      let sorted := List.insertionSort (fun a b => b.2 ≤ a.2) final_scored
      (sorted.take top_k).map (fun q => q.1.1)

/-- The RRF smoothing constant `RRF_K` of `OnsenRAG._hybrid_search`. -/
def RRF_K : Nat := 60

/-- One pass of the RRF accumulation loop of `_hybrid_search`: for each
document of one ranked list, add `weight / (rank + RRF_K)` to the fused
score of its content (`doc_scores.get(content, 0) + score`). -/
def rrfFold (w : ℚ) : List Document → Nat → List (String × ℚ) → List (String × ℚ)
  | [], _, scores => scores
  | d :: ds, rank, scores =>
    rrfFold w ds (rank + 1)
      (pyAssign scores d.page_content
        (((pyLookup scores d.page_content).getD 0) + w / ((rank : ℚ) + (RRF_K : ℚ))))

/-- The `doc_scores` dict of `_hybrid_search`: semantic list first, then the
keyword (BM25) list. -/
def docScores (sw kw : ℚ) (semantic_docs bm25_docs : List Document) :
    List (String × ℚ) :=
  rrfFold kw bm25_docs 0 (rrfFold sw semantic_docs 0 [])

/-- The fused score a content string ends up with (`0` if absent). -/
def scoreOf (sw : ℚ) (semantic_docs bm25_docs : List Document) (c : String) : ℚ :=
  (pyLookup (docScores sw (keywordWeight sw) semantic_docs bm25_docs) c).getD 0

/-- The `doc_map` of `_hybrid_search`: content to document, the later list
overwriting. -/
def rrfDocMap (semantic_docs bm25_docs : List Document) :
    List (String × Document) :=
  (semantic_docs ++ bm25_docs).foldl (fun m d => pyAssign m d.page_content d) []

/-- The `sorted_contents` of `_hybrid_search`: the dict keys sorted by fused
score, descending and stable (Python `sorted` over `doc_scores.keys()`). -/
def sortedContents (sw : ℚ) (semantic_docs bm25_docs : List Document) :
    List String :=
  List.insertionSort (fun a b => scoreOf sw semantic_docs bm25_docs b ≤ scoreOf sw semantic_docs bm25_docs a)
    ((docScores sw (keywordWeight sw) semantic_docs bm25_docs).map (fun p => p.1))

/-- The `rrf_results` of `_hybrid_search`: the sorted contents mapped back
to documents through `doc_map`. -/
def rrfResults (sw : ℚ) (semantic_docs bm25_docs : List Document) :
    List Document :=
  (sortedContents sw semantic_docs bm25_docs).map
    (fun c => (pyLookup (rrfDocMap semantic_docs bm25_docs) c).getD default)

/-- The entity-context resolution at the top of `_hybrid_search`: a detected
location overwrites the stored context; otherwise a stored context is
substituted and that substitution is logged.  Returns
`(location used for this query, new stored context, whether the
substitution was logged)`. -/
def resolveLocation (question : String) (last : Option String) :
    Option String × Option String × Bool :=
  match detectLocation question with
  | some loc => (some loc, some loc, false)
  | none =>
    match last with
    | some l => (some l, some l, true)
    | none => (none, none, false)

/-- Observable outcome of `_hybrid_search`: the selected documents, the
location that scoped the retrieval (logged in `[STEP1]`), whether the
`[CONTEXT]` substitution message was printed, and the new stored context. -/
structure SearchOut where
  docs : List Document
  usedLocation : Option String
  contextLogged : Bool
  newLast : Option String
deriving Repr, DecidableEq

/-- `OnsenRAG._hybrid_search`: entity-context resolution, semantic and BM25
retrieval (per-location retrievers plus the `onsen` retriever when a
location scopes the query, the whole-corpus retriever otherwise, nothing
when the BM25 cache was never built), RRF fusion, CrossEncoder reranking,
the judgment extraction stage (skipped when at most `final_k + 2`
candidates remain, every LLM score then `0`), and final selection with the
default weights `0.4` and `0.6`. -/
def hybridSearch (o : Oracles) (cfg : Config) (last : Option String)
    (question : String) (k : Nat) : SearchOut :=
  let r := resolveLocation question last
  let location := r.1
  let semantic_docs := o.semanticSearch question cfg.initial_k location
  let bm25_docs :=
    match location with
    | some loc => if o.bm25Built then o.bm25Loc loc question ++ o.bm25Loc "onsen" question else []
    | none => if o.bm25Built then o.bm25All question else []
  let fused := rrfResults cfg.semantic_weight semantic_docs bm25_docs
  let scored := rerank o question fused
  let llm_candidates :=
    if cfg.final_k + 2 < scored.length then
      llmExtractCandidates o question scored (cfg.final_k + 2)
    else scored.map (fun p => (p.1, p.2, 0))
  let docs := finalSelection llm_candidates k (2/5) (3/5)
  ⟨docs, location, r.2.2, r.2.1⟩

/-- Mutable per-instance state of `OnsenRAG`: the conversational context
`_last_location` and the query cache `_query_cache`. -/
structure RagState where
  last : Option String
  cache : Cache PyDict

/-- The chunk-id list built by the context loop of `OnsenRAG.query`:
`chunk_id` metadata if nonempty, else the dotted `source` metadata with
`.` replaced by `_` when the key exists, else `doc_{n+1}` where `n` is the
number of context parts accumulated so far. -/
def cidForQuery (d : Document) (n : Nat) : String :=
  let cid := d.chunk_id.getD ""
  let cid := if cid = "" then
      (match d.source with
       | some s => pyReplaceChar '.' '_' s
       | none => cid)
    else cid
  if cid = "" then "doc_" ++ toString (n + 1) else cid

/-- The `chunk_ids` list of `OnsenRAG.query`, one identifier per selected
document. -/
def chunkIdsOf : List Document → Nat → List String
  | [], _ => []
  | d :: ds, n => cidForQuery d n :: chunkIdsOf ds (n + 1)

/-- `OnsenRAG.query`: raises (`.error`) when no data is loaded; otherwise a
fresh cache hit short-circuits the pipeline; otherwise the hybrid search
runs, the result dict `result`, `source_documents`, `chunk_ids` is built
and stored in the cache.  The returned state carries the updated
conversational context and cache. -/
def query (o : Oracles) (cfg : Config) (st : RagState) (loaded : Bool)
    (question : String) (k : Nat) : Except String (PyDict × RagState) :=
  if !loaded then Except.error "データが未読み込みです。" else
  let key := cacheKey question k
  let g := getFromCache st.cache key o.now
  match g.1 with
  | some cached => Except.ok (cached, { st with cache := g.2 })
  | none =>
    let so := hybridSearch o cfg st.last question k
    let docs := so.docs
    let ids := chunkIdsOf docs 0
    let context :=
      if docs = [] then "（該当する文脈なし）"
      else String.intercalate "\n\n---\n\n" (docs.map (fun d => d.page_content))
    let answer := pyStrip (o.stripIds (o.llmAnswer context question))
    let result : PyDict :=
      [("result", PyValue.str answer), ("source_documents", PyValue.docs docs),
       ("chunk_ids", PyValue.strs ids)]
    let cache' := putToCache g.2 key result o.now
    Except.ok (result, { last := so.newLast, cache := cache' })

/-- Well-formedness of a `query` result dict: it carries the selected
documents under `source_documents` and a parallel `chunk_ids` list of the
same length. -/
def WFDict (d : PyDict) : Prop :=
  ∃ ds ids, pyLookup d "source_documents" = some (PyValue.docs ds)
    ∧ pyLookup d "chunk_ids" = some (PyValue.strs ids)
    ∧ ids.length = ds.length

/-- A concrete corpus chunk used to exercise the pipeline. -/
def testDoc : Document :=
  ⟨"草津温泉へのアクセス方法", some "kusatsu_001", some "guide.json", some "kusatsu"⟩

/-- Concrete oracles: one semantic hit, no BM25 cache, CrossEncoder score
`1`, a failing judgment call, and a fixed generated answer. -/
def testO : Oracles where
  semanticSearch := fun _ _ _ => [testDoc]
  bm25Loc := fun _ _ => []
  bm25All := fun _ => []
  bm25Built := false
  ce := fun _ _ => 1
  llmJudge := fun _ _ => none
  parseFloat := fun _ => none
  llmAnswer := fun _ _ => "ans"
  stripIds := fun s => s
  now := 0

/-- The default configuration of `OnsenRAG.__init__`. -/
def testCfg : Config := ⟨1/2, 10, 3⟩

/-- The dict the pipeline returns for the query `草津アクセス` with `k = 1`
under `testO`. -/
def testQueryDict : PyDict :=
  [("result", PyValue.str "ans"), ("source_documents", PyValue.docs [testDoc]),
   ("chunk_ids", PyValue.strs ["kusatsu_001"])]

/-- The state the pipeline leaves behind after that query. -/
def testQueryState : RagState :=
  ⟨some "kusatsu", [("草津アクセス::1", ⟨testQueryDict, 0⟩)]⟩

/-- A query cache filled to capacity (`128` entries). -/
def bigTestCache : Cache ℚ :=
  (List.range cacheMaxsize).map (fun i => (toString i, ⟨0, 0⟩))

section PyDictLemmas

variable {β : Type}

theorem pyLookup_pyAssign (d : List (String × β)) (k k' : String) (v : β) :
    pyLookup (pyAssign d k v) k' = if k' = k then some v else pyLookup d k' := by
  induction d with
  | nil =>
    by_cases h : k' = k
    · subst h; simp [pyAssign, pyLookup]
    · simp [pyAssign, pyLookup, h, Ne.symm h]
  | cons p rest ih =>
    by_cases hp : p.1 = k
    · rw [pyAssign, if_pos hp, pyLookup]
      by_cases h : k' = k
      · subst h; simp
      · have hpk' : ¬ p.1 = k' := by rw [hp]; exact fun hh => h hh.symm
        simp [pyLookup, Ne.symm h, h, hpk']
    · rw [pyAssign, if_neg hp, pyLookup, pyLookup, ih]
      by_cases h1 : p.1 = k'
      · have h2 : ¬ k' = k := fun hh => hp (h1.trans hh)
        simp [h1, h2]
      · simp [h1]

theorem mem_pyAssign {d : List (String × β)} {k : String} {v : β} {p : String × β}
    (h : p ∈ pyAssign d k v) : p ∈ d ∨ p = (k, v) := by
  induction d with
  | nil => simpa [pyAssign] using h
  | cons q rest ih =>
    by_cases hq : q.1 = k
    · simp only [pyAssign, hq, if_pos rfl] at h
      rcases List.mem_cons.1 h with h | h
      · exact Or.inr h
      · exact Or.inl (List.mem_cons_of_mem _ h)
    · simp only [pyAssign, hq, if_neg hq] at h
      rcases List.mem_cons.1 h with h | h
      · exact Or.inl (h ▸ List.mem_cons_self _ _)
      · rcases ih h with h | h
        · exact Or.inl (List.mem_cons_of_mem _ h)
        · exact Or.inr h

theorem pyLookup_mem {d : List (String × β)} {k : String} {v : β}
    (h : pyLookup d k = some v) : (k, v) ∈ d := by
  induction d with
  | nil => simp [pyLookup] at h
  | cons p rest ih =>
    by_cases hp : p.1 = k
    · simp only [pyLookup, if_pos hp] at h
      exact List.mem_cons.2 (Or.inl (by cases p; cases h; cases hp; rfl))
    · simp only [pyLookup, if_neg hp] at h
      exact List.mem_cons_of_mem _ (ih h)

theorem length_pyAssign_le (d : List (String × β)) (k : String) (v : β) :
    (pyAssign d k v).length ≤ d.length + 1 := by
  induction d with
  | nil => simp [pyAssign]
  | cons p rest ih =>
    by_cases hp : p.1 = k <;> simp [pyAssign, hp] <;> omega

theorem mem_pyDelete {d : List (String × β)} {k : String} {p : String × β}
    (h : p ∈ pyDelete d k) : p ∈ d := by
  induction d with
  | nil => simpa [pyDelete] using h
  | cons q rest ih =>
    by_cases hq : q.1 = k
    · simp only [pyDelete, if_pos hq] at h
      exact List.mem_cons_of_mem _ h
    · simp only [pyDelete, if_neg hq] at h
      rcases List.mem_cons.1 h with h | h
      · exact h ▸ List.mem_cons_self _ _
      · exact List.mem_cons_of_mem _ (ih h)

theorem length_pyDelete_le (d : List (String × β)) (k : String) :
    (pyDelete d k).length ≤ d.length := by
  induction d with
  | nil => simp [pyDelete]
  | cons p rest ih =>
    by_cases hp : p.1 = k <;> simp [pyDelete, hp] <;> omega

theorem length_pyDelete_of_lookup {d : List (String × β)} {k : String} {v : β}
    (h : pyLookup d k = some v) : (pyDelete d k).length + 1 = d.length := by
  induction d with
  | nil => simp [pyLookup] at h
  | cons p rest ih =>
    by_cases hp : p.1 = k
    · simp [pyDelete, hp]
    · simp only [pyLookup, if_neg hp] at h
      simp [pyDelete, hp, ih h]

theorem length_moveToEnd (d : List (String × β)) (k : String) :
    (moveToEnd d k).length = d.length := by
  unfold moveToEnd
  cases h : pyLookup d k with
  | none => rfl
  | some v => simpa using length_pyDelete_of_lookup h

theorem mem_moveToEnd {d : List (String × β)} {k : String} {p : String × β}
    (h : p ∈ moveToEnd d k) : p ∈ d := by
  unfold moveToEnd at h
  cases hl : pyLookup d k with
  | none => rwa [hl] at h
  | some v =>
    rw [hl] at h
    rcases List.mem_append.1 h with h | h
    · exact mem_pyDelete h
    · have : p = (k, v) := by simpa using h
      exact this ▸ pyLookup_mem hl

theorem pyLookup_pyDelete_self {d : List (String × β)} {k : String}
    (hnd : (d.map Prod.fst).Nodup) : pyLookup (pyDelete d k) k = none := by
  induction d with
  | nil => simp [pyDelete, pyLookup]
  | cons p rest ih =>
    simp only [List.map_cons, List.nodup_cons] at hnd
    by_cases hp : p.1 = k
    · simp only [pyDelete, if_pos hp]
      cases hl : pyLookup rest k with
      | none => rfl
      | some v =>
        exact absurd (hp ▸ List.mem_map_of_mem Prod.fst (pyLookup_mem hl)) hnd.1
    · simp [pyDelete, hp, pyLookup, ih hnd.2]

end PyDictLemmas

/-- C6: `_detect_location` returns a tag exactly when the keywords of
exactly one configured location tag occur as substrings of the query (the
returned tag being that location); zero or at least two matching tags give
`None`.  The fourth conjunct characterises membership of the `detected`
list as keyword-substring occurrence. -/
theorem detect_location_unique_tag (question : String) :
    (∀ t, detectLocation question = some t ↔ detectedLocations question = [t])
  ∧ (detectedLocations question = [] → detectLocation question = none)
  ∧ (2 ≤ (detectedLocations question).length → detectLocation question = none)
  ∧ (∀ t, t ∈ detectedLocations question ↔
      ∃ kws, (t, kws) ∈ LOCATION_KEYWORDS
        ∧ kws.any (fun kw => strContains question kw) = true) := by
  refine ⟨?_, ?_, ?_, ?_⟩
  · intro t
    unfold detectLocation
    rcases hD : detectedLocations question with _ | ⟨a, _ | ⟨b, l⟩⟩
    · simp
    · simp [List.head?, eq_comm]
    · simp
  · intro h
    unfold detectLocation
    rw [h]
    simp
  · intro h
    unfold detectLocation
    have hne : ¬ (detectedLocations question).length = 1 := by omega
    simp [hne]
  · intro t
    unfold detectedLocations
    constructor
    · intro h
      rcases List.mem_map.1 h with ⟨p, hp, hpt⟩
      rcases List.mem_filter.1 hp with ⟨hmem, hpred⟩
      exact ⟨p.2, by rw [← hpt]; exact hmem, hpred⟩
    · rintro ⟨kws, hmem, hpred⟩
      exact List.mem_map.2 ⟨(t, kws), List.mem_filter.2 ⟨hmem, hpred⟩, rfl⟩

/-- Witness for C6: `草津アクセス` detects `kusatsu`; a keyword-free query
detects nothing; a query naming two locations detects nothing. -/
theorem detect_location_unique_tag_witness :
    detectLocation "草津アクセス" = some "kusatsu"
  ∧ detectLocation "カフェは？" = none
  ∧ detectLocation "草津と有馬" = none :=
  ⟨((detect_location_unique_tag "草津アクセス").1 "kusatsu").2 (by decide),
   (detect_location_unique_tag "カフェは？").2.1 (by decide),
   (detect_location_unique_tag "草津と有馬").2.2.1 (by decide)⟩

/-- C7: a detected location overwrites the stored context tag (even when
unchanged); when detection returns `None` and a context tag is stored, the
stored tag is used as this query's entity filter and the substitution is
logged, so a keyword-free follow-up query is scoped to the previously
detected location. -/
theorem context_carryover :
    (∀ question last t, detectLocation question = some t →
      resolveLocation question last = (some t, some t, false))
  ∧ (∀ question l, detectLocation question = none →
      resolveLocation question (some l) = (some l, some l, true))
  ∧ (∀ o cfg last question k t, detectLocation question = some t →
      (hybridSearch o cfg last question k).newLast = some t
      ∧ (hybridSearch o cfg last question k).usedLocation = some t
      ∧ (hybridSearch o cfg last question k).contextLogged = false)
  ∧ (∀ o cfg l question k, detectLocation question = none →
      (hybridSearch o cfg (some l) question k).usedLocation = some l
      ∧ (hybridSearch o cfg (some l) question k).contextLogged = true
      ∧ (hybridSearch o cfg (some l) question k).newLast = some l) := by
  refine ⟨?_, ?_, ?_, ?_⟩
  · intro question last t h
    simp [resolveLocation, h]
  · intro question l h
    simp [resolveLocation, h]
  · intro o cfg last question k t h
    refine ⟨?_, ?_, ?_⟩ <;> simp [hybridSearch, resolveLocation, h]
  · intro o cfg l question k h
    refine ⟨?_, ?_, ?_⟩ <;> simp [hybridSearch, resolveLocation, h]

/-- Witness for C7: the two-turn exchange `有馬の温泉` then `カフェは？`
keeps the `arima` scope for the second query and logs the substitution. -/
theorem context_carryover_witness :
    resolveLocation "有馬の温泉" none = (some "arima", some "arima", false)
  ∧ resolveLocation "カフェは？" (some "arima") = (some "arima", some "arima", true)
  ∧ (hybridSearch testO testCfg none "有馬の温泉" 3).newLast = some "arima"
  ∧ (hybridSearch testO testCfg (some "arima") "カフェは？" 3).usedLocation = some "arima" :=
  ⟨(context_carryover).1 "有馬の温泉" none "arima" (by decide),
   (context_carryover).2.1 "カフェは？" "arima" (by decide),
   ((context_carryover).2.2.1 testO testCfg none "有馬の温泉" 3 "arima" (by decide)).1,
   ((context_carryover).2.2.2 testO testCfg "arima" "カフェは？" 3 (by decide)).1⟩

/-- C2: the confidence gate of `_final_selection` keeps exactly the
candidates whose CrossEncoder score is at least `CONFIDENCE_THRESHOLD`
(the boundary score is kept, any lower score is dropped), and when no
candidate survives the gate the selection returns the empty list; every
returned document comes from a gate survivor. -/
theorem final_selection_confidence_gate (candidates : List (Document × ℚ × ℚ))
    (top_k : Nat) (cw lw : ℚ) :
    (∀ c, c ∈ confGate candidates ↔ c ∈ candidates ∧ CONFIDENCE_THRESHOLD ≤ c.2.1)
  ∧ (∀ c ∈ candidates, c.2.1 < CONFIDENCE_THRESHOLD → c ∉ confGate candidates)
  ∧ (confGate candidates = [] → finalSelection candidates top_k cw lw = [])
  ∧ (∀ d ∈ finalSelection candidates top_k cw lw,
      ∃ c ∈ confGate candidates, c.1 = d) := by
  have hmem : ∀ c, c ∈ confGate candidates ↔
      c ∈ candidates ∧ CONFIDENCE_THRESHOLD ≤ c.2.1 := by
    intro c
    simp [confGate, List.mem_filter]
  refine ⟨hmem, ?_, ?_, ?_⟩
  · intro c _ hlt hcg
    exact absurd ((hmem c).1 hcg).2 (not_le.2 hlt)
  · intro h
    unfold finalSelection
    by_cases hc : candidates = []
    · simp [hc]
    · simp [hc, h]
  · intro d hd
    unfold finalSelection at hd
    by_cases hc : candidates = []
    · simp [hc] at hd
    · by_cases hcf : confGate candidates = []
      · simp [hc, hcf] at hd
      · simp only [finalSelection, hc, hcf, if_false, reduceIte] at hd
        rcases List.mem_map.1 hd with ⟨q, hq, hqd⟩
        have hq1 := List.take_subset _ _ hq
        have hq2 := (List.mem_insertionSort _).1 hq1
        rcases List.mem_map.1 hq2 with ⟨c, hcmem, hcq⟩
        refine ⟨c, hcmem, ?_⟩
        rw [← hcq] at hqd
        exact hqd

/-- Witness for C2: a boundary candidate (score exactly `-3`) is kept, a
candidate one unit below is dropped, and an all-below-threshold candidate
list selects nothing. -/
theorem final_selection_confidence_gate_witness :
    ((testDoc, (-3 : ℚ), (0 : ℚ)) ∈ confGate [(testDoc, -3, 0)]
      ↔ (testDoc, (-3 : ℚ), (0 : ℚ)) ∈ [(testDoc, (-3 : ℚ), (0 : ℚ))]
          ∧ CONFIDENCE_THRESHOLD ≤ (-3 : ℚ))
  ∧ (testDoc, (-4 : ℚ), (0 : ℚ)) ∉ confGate [(testDoc, -4, 0)]
  ∧ finalSelection [(testDoc, -4, 0)] 3 (2/5) (3/5) = [] :=
  ⟨(final_selection_confidence_gate [(testDoc, -3, 0)] 3 (2/5) (3/5)).1 _,
   (final_selection_confidence_gate [(testDoc, -4, 0)] 3 (2/5) (3/5)).2.1 _
     (by decide) (by decide),
   (final_selection_confidence_gate [(testDoc, -4, 0)] 3 (2/5) (3/5)).2.2.1
     (by decide)⟩

/-- Counterexample to C4 as stated: an entry inserted at time `0` and read
at time `300` has elapsed time exactly the TTL (`300`), so the claim
demands a miss (`None`); `_get_from_cache` expires only on
`now - timestamp > ttl` and returns a hit with the stored result. -/
theorem cache_get_ttl_boundary_counterexample :
    getFromCache [("k", (⟨(7 : ℚ), 0⟩ : CacheEntry ℚ))] "k" 300
      = (some 7, [("k", ⟨7, 0⟩)])
  ∧ cacheTtl ≤ (300 : ℚ) - 0 := by
  constructor
  · simp only [getFromCache, pyLookup, moveToEnd, pyDelete]
    norm_num [cacheTtl]
  · norm_num [cacheTtl]

/-- C4 (amended): `get` returns the stored result unchanged when the key is
present and the elapsed time is at most the TTL (inclusive boundary on the
hit side); it returns a miss both when the key is absent and when the
elapsed time strictly exceeds the TTL, the expired entry being deleted by
that access; the TTL is 300 seconds. -/
theorem cache_get_ttl_amended {β : Type} (cache : Cache β) (key : String) (now : ℚ) :
    (pyLookup cache key = none → getFromCache cache key now = (none, cache))
  ∧ (∀ e, pyLookup cache key = some e → now - e.timestamp ≤ cacheTtl →
      getFromCache cache key now = (some e.result, moveToEnd cache key))
  ∧ (∀ e, pyLookup cache key = some e → cacheTtl < now - e.timestamp →
      getFromCache cache key now = (none, pyDelete cache key))
  ∧ (∀ e, pyLookup cache key = some e → cacheTtl < now - e.timestamp →
      (cache.map Prod.fst).Nodup → pyLookup (getFromCache cache key now).2 key = none)
  ∧ cacheTtl = 300 := by
  refine ⟨?_, ?_, ?_, ?_, rfl⟩
  · intro h
    simp only [getFromCache, h]
  · intro e he hfresh
    simp only [getFromCache, he]
    rw [if_neg (not_lt.2 hfresh)]
  · intro e he hexp
    simp only [getFromCache, he]
    rw [if_pos hexp]
  · intro e he hexp hnd
    simp only [getFromCache, he]
    rw [if_pos hexp]
    exact pyLookup_pyDelete_self hnd

/-- Witness for C4 (amended): absent key, fresh hit, and expired deletion
at concrete inputs. -/
theorem cache_get_ttl_amended_witness :
    getFromCache ([] : Cache ℚ) "k" 0 = (none, [])
  ∧ getFromCache [("k", (⟨(7 : ℚ), 0⟩ : CacheEntry ℚ))] "k" 10
      = (some 7, moveToEnd [("k", ⟨7, 0⟩)] "k")
  ∧ getFromCache [("k", (⟨(7 : ℚ), 0⟩ : CacheEntry ℚ))] "k" 301
      = (none, pyDelete [("k", ⟨7, 0⟩)] "k")
  ∧ pyLookup (getFromCache [("k", (⟨(7 : ℚ), 0⟩ : CacheEntry ℚ))] "k" 301).2 "k" = none :=
  ⟨(cache_get_ttl_amended ([] : Cache ℚ) "k" 0).1 rfl,
   (cache_get_ttl_amended [("k", (⟨(7 : ℚ), 0⟩ : CacheEntry ℚ))] "k" 10).2.1
     ⟨7, 0⟩ rfl (by norm_num [cacheTtl]),
   (cache_get_ttl_amended [("k", (⟨(7 : ℚ), 0⟩ : CacheEntry ℚ))] "k" 301).2.2.1
     ⟨7, 0⟩ rfl (by norm_num [cacheTtl]),
   (cache_get_ttl_amended [("k", (⟨(7 : ℚ), 0⟩ : CacheEntry ℚ))] "k" 301).2.2.2.1
     ⟨7, 0⟩ rfl (by norm_num [cacheTtl]) (by simp)⟩

/-- Single cache operations preserve the capacity bound. -/
theorem runOp_length_le {β : Type} (cache : Cache β) (op : CacheOp β)
    (h : cache.length ≤ cacheMaxsize) : (runOp cache op).length ≤ cacheMaxsize := by
  cases op with
  | get key now =>
    simp only [runOp]
    cases hl : pyLookup cache key with
    | none => simpa [getFromCache, hl] using h
    | some e =>
      by_cases hx : cacheTtl < now - e.timestamp
      · simp only [getFromCache, hl, if_pos hx]
        exact le_trans (length_pyDelete_le cache key) h
      · simp only [getFromCache, hl, if_neg hx]
        rw [length_moveToEnd]
        exact h
  | put key r now =>
    simp only [runOp, putToCache]
    by_cases hfull : cacheMaxsize ≤ cache.length
    · rw [if_pos hfull]
      have h1 := length_pyAssign_le cache.tail key (⟨r, now⟩ : CacheEntry β)
      have h2 : cache.tail.length = cache.length - 1 := List.length_tail cache
      have h3 : 1 ≤ cacheMaxsize := by norm_num [cacheMaxsize]
      omega
    · rw [if_neg hfull]
      have h1 := length_pyAssign_le cache key (⟨r, now⟩ : CacheEntry β)
      omega

/-- C5: the query cache never exceeds its fixed capacity of 128 entries
under any sequence of `get`/`put` operations; a `put` on a cache at
capacity pops the front (least-recently-used, since hits move entries to
the back and insertions append at the back) entry before inserting; and a
fresh `get` hit moves the accessed entry to the most-recently-used (last)
position. -/
theorem cache_lru_bound_invariant :
    (∀ (β : Type) (cache : Cache β), cache.length ≤ cacheMaxsize →
      ∀ ops, (runOps cache ops).length ≤ cacheMaxsize)
  ∧ cacheMaxsize = 128
  ∧ (∀ (β : Type) (cache : Cache β) key r now, cache.length = cacheMaxsize →
      putToCache cache key r now = pyAssign cache.tail key ⟨r, now⟩)
  ∧ (∀ (β : Type) (cache : Cache β) key now (e : CacheEntry β),
      pyLookup cache key = some e → now - e.timestamp ≤ cacheTtl →
      (getFromCache cache key now).2 = pyDelete cache key ++ [(key, e)]
      ∧ ((getFromCache cache key now).2).getLast? = some (key, e)) := by
  refine ⟨?_, rfl, ?_, ?_⟩
  · intro β cache h ops
    induction ops generalizing cache with
    | nil => exact h
    | cons op ops ih =>
      exact ih (runOp cache op) (runOp_length_le cache op h)
  · intro β cache key r now h
    simp only [putToCache]
    rw [if_pos (by omega)]
  · intro β cache key now e he hfresh
    have hget : (getFromCache cache key now).2 = pyDelete cache key ++ [(key, e)] := by
      simp only [getFromCache, he]
      rw [if_neg (not_lt.2 hfresh)]
      unfold moveToEnd
      rw [he]
    exact ⟨hget, by rw [hget]; exact List.getLast?_concat _⟩

/-- Witness for C5: capacity preserved from the empty cache over a put and
a get; eviction of the front entry on a put at capacity; promotion of a
hit to the last position. -/
theorem cache_lru_bound_invariant_witness :
    (runOps ([] : Cache ℚ) [CacheOp.put "a" 3 0, CacheOp.get "a" 1]).length ≤ cacheMaxsize
  ∧ putToCache bigTestCache "k" (5 : ℚ) 0 = pyAssign bigTestCache.tail "k" ⟨5, 0⟩
  ∧ (getFromCache [("a", (⟨(1 : ℚ), 0⟩ : CacheEntry ℚ)), ("b", ⟨2, 0⟩)] "a" 5).2
      = pyDelete [("a", (⟨(1 : ℚ), 0⟩ : CacheEntry ℚ)), ("b", ⟨2, 0⟩)] "a"
        ++ [("a", ⟨1, 0⟩)]
  ∧ ((getFromCache [("a", (⟨(1 : ℚ), 0⟩ : CacheEntry ℚ)), ("b", ⟨2, 0⟩)] "a" 5).2).getLast?
      = some ("a", ⟨1, 0⟩) :=
  ⟨cache_lru_bound_invariant.1 ℚ [] (by simp) _,
   cache_lru_bound_invariant.2.2.1 ℚ bigTestCache "k" 5 0
     (by simp [bigTestCache]),
   (cache_lru_bound_invariant.2.2.2 ℚ
     [("a", (⟨(1 : ℚ), 0⟩ : CacheEntry ℚ)), ("b", ⟨2, 0⟩)] "a" 5 ⟨1, 0⟩
     rfl (by norm_num [cacheTtl])).1,
   (cache_lru_bound_invariant.2.2.2 ℚ
     [("a", (⟨(1 : ℚ), 0⟩ : CacheEntry ℚ)), ("b", ⟨2, 0⟩)] "a" 5 ⟨1, 0⟩
     rfl (by norm_num [cacheTtl])).2⟩

/-- Context is never cleared by a single resolution step. -/
theorem resolveLocation_isSome (question : String) (last : Option String)
    (h : last.isSome = true) : ((resolveLocation question last).2.1).isSome = true := by
  unfold resolveLocation
  cases hd : detectLocation question with
  | some loc => simp
  | none =>
    cases last with
    | none => simp at h
    | some l => simp

/-- C9: once a location tag is stored in `_last_location`, no operation of
the pipeline ever resets it to `None`: every resolution step keeps it set,
every sequence of queries keeps it set (both at the `resolveLocation`
level and through `query` itself), and any query in which no location is
detected is scoped to the most recently stored location. -/
theorem last_location_never_cleared :
    (∀ question last, last.isSome = true →
      ((resolveLocation question last).2.1).isSome = true)
  ∧ (∀ (qs : List String) last, last.isSome = true →
      (qs.foldl (fun l q => (resolveLocation q l).2.1) last).isSome = true)
  ∧ (∀ o cfg st question k d st', st.last.isSome = true →
      query o cfg st true question k = Except.ok (d, st') → st'.last.isSome = true)
  ∧ (∀ question l, detectLocation question = none →
      (resolveLocation question (some l)).1 = some l) := by
  refine ⟨resolveLocation_isSome, ?_, ?_, ?_⟩
  · intro qs
    induction qs with
    | nil => intro last h; exact h
    | cons q qs ih =>
      intro last h
      exact ih _ (resolveLocation_isSome q last h)
  · intro o cfg st question k d st' h heq
    simp only [query, Bool.not_true] at heq
    rw [if_neg (by simp)] at heq
    cases hg : (getFromCache st.cache (cacheKey question k) o.now).1 with
    | some cached =>
      rw [hg] at heq
      simp only [Except.ok.injEq, Prod.mk.injEq] at heq
      obtain ⟨-, rfl⟩ := heq
      exact h
    | none =>
      rw [hg] at heq
      simp only [Except.ok.injEq, Prod.mk.injEq] at heq
      obtain ⟨-, rfl⟩ := heq
      simpa only [hybridSearch] using resolveLocation_isSome question st.last h
  · intro question l h
    simp [resolveLocation, h]

/-- Concrete evaluation: a keyword-free query on a state whose stored
context is `arima` keeps that context in the end state. -/
theorem testQueryArima_eval :
    query testO testCfg ⟨some "arima", []⟩ true "カフェは？" 1
      = Except.ok (testQueryDict,
          ⟨some "arima", [("カフェは？::1", ⟨testQueryDict, 0⟩)]⟩) := by
  have hdet : detectLocation "カフェは？" = none := by decide
  have htrim : pyStrip "ans" = "ans" := by decide
  have hkey : cacheKey "カフェは？" 1 = "カフェは？::1" := rfl
  have hcid : cidForQuery testDoc 0 = "kusatsu_001" := by decide
  simp only [query, Bool.not_true, if_neg, getFromCache, pyLookup, hkey]
  norm_num [hybridSearch, resolveLocation, hdet, testO, testCfg, rrfResults,
    sortedContents, docScores, scoreOf, rrfFold, rrfDocMap, pyAssign, pyLookup,
    keywordWeight, rerank, llmExtractCandidates, finalSelection, confGate,
    pyMin, pyMax, CONFIDENCE_THRESHOLD, putToCache, cacheMaxsize, moveToEnd,
    pyDelete, chunkIdsOf, hcid, testQueryDict,
    htrim, List.insertionSort, List.orderedInsert]

/-- Witness for C9: a stored `arima` context survives two keyword-free
queries at every level, and scopes them. -/
theorem last_location_never_cleared_witness :
    ((resolveLocation "カフェは？" (some "arima")).2.1).isSome = true
  ∧ ((["カフェは？", "営業時間は？"].foldl
        (fun l q => (resolveLocation q l).2.1) (some "arima")).isSome = true)
  ∧ (⟨some "arima", [("カフェは？::1", ⟨testQueryDict, 0⟩)]⟩ : RagState).last.isSome = true
  ∧ (resolveLocation "カフェは？" (some "arima")).1 = some "arima" :=
  ⟨last_location_never_cleared.1 "カフェは？" (some "arima") rfl,
   last_location_never_cleared.2.1 ["カフェは？", "営業時間は？"] (some "arima") rfl,
   last_location_never_cleared.2.2.1 testO testCfg ⟨some "arima", []⟩ "カフェは？" 1
     testQueryDict ⟨some "arima", [("カフェは？::1", ⟨testQueryDict, 0⟩)]⟩ rfl
     testQueryArima_eval,
   last_location_never_cleared.2.2.2 "カフェは？" "arima" (by decide)⟩

/-- The `chunk_ids` loop emits exactly one identifier per document. -/
theorem length_chunkIdsOf : ∀ (docs : List Document) (n : Nat),
    (chunkIdsOf docs n).length = docs.length
  | [], _ => rfl
  | _ :: ds, n => by simp [chunkIdsOf, length_chunkIdsOf ds (n + 1)]

/-- A cache hit returns the result of an entry stored in the cache. -/
theorem getFromCache_fst_some {β : Type} {cache : Cache β} {key : String}
    {now : ℚ} {r : β} (h : (getFromCache cache key now).1 = some r) :
    ∃ e, pyLookup cache key = some e ∧ e.result = r := by
  cases hl : pyLookup cache key with
  | none => simp [getFromCache, hl] at h
  | some e =>
    simp only [getFromCache, hl] at h
    by_cases hx : cacheTtl < now - e.timestamp
    · rw [if_pos hx] at h; simp at h
    · rw [if_neg hx] at h
      exact ⟨e, rfl, by simpa using h⟩

/-- The cache returned by `get` only contains entries of the input cache. -/
theorem mem_getFromCache_snd {β : Type} {cache : Cache β} {key : String}
    {now : ℚ} {p : String × CacheEntry β}
    (h : p ∈ (getFromCache cache key now).2) : p ∈ cache := by
  cases hl : pyLookup cache key with
  | none => simp only [getFromCache, hl] at h; exact h
  | some e =>
    simp only [getFromCache, hl] at h
    by_cases hx : cacheTtl < now - e.timestamp
    · rw [if_pos hx] at h; exact mem_pyDelete h
    · rw [if_neg hx] at h; exact mem_moveToEnd h

/-- The cache after a `put` holds old entries plus the new one. -/
theorem mem_putToCache {β : Type} {cache : Cache β} {key : String} {res : β}
    {now : ℚ} {p : String × CacheEntry β} (h : p ∈ putToCache cache key res now) :
    p ∈ cache ∨ p = (key, ⟨res, now⟩) := by
  simp only [putToCache] at h
  rcases mem_pyAssign h with h | h
  · by_cases hfull : cacheMaxsize ≤ cache.length
    · rw [if_pos hfull] at h
      exact Or.inl (List.mem_of_mem_tail h)
    · rw [if_neg hfull] at h
      exact Or.inl h
  · exact Or.inr h

/-- Concrete evaluation of the whole pipeline: the query `草津アクセス`
with `k = 1` on a fresh state returns `testQueryDict` and stores it. -/
theorem testQuery_eval :
    query testO testCfg ⟨none, []⟩ true "草津アクセス" 1
      = Except.ok (testQueryDict, testQueryState) := by
  have hdet : detectLocation "草津アクセス" = some "kusatsu" := by decide
  have htrim : pyStrip "ans" = "ans" := by decide
  have hkey : cacheKey "草津アクセス" 1 = "草津アクセス::1" := rfl
  have hcid : cidForQuery testDoc 0 = "kusatsu_001" := by decide
  simp only [query, Bool.not_true, if_neg, getFromCache, pyLookup, hkey]
  norm_num [hybridSearch, resolveLocation, hdet, testO, testCfg, rrfResults,
    sortedContents, docScores, scoreOf, rrfFold, rrfDocMap, pyAssign, pyLookup,
    keywordWeight, rerank, llmExtractCandidates, finalSelection, confGate,
    pyMin, pyMax, CONFIDENCE_THRESHOLD, putToCache, cacheMaxsize, moveToEnd,
    pyDelete, chunkIdsOf, hcid, testQueryDict, testQueryState,
    htrim, List.insertionSort, List.orderedInsert]

/-- Counterexample to C1 as stated: a loaded pipeline answering
`草津アクセス` with `k = 1` returns exactly one chunk, yet its result dict
contains no numeric score list at all (no key maps to a list of numbers,
let alone a parallel one of length 1): `query` returns `result`,
`source_documents` and `chunk_ids` only, the scores having been dropped by
`_final_selection`. -/
theorem query_no_numeric_scores_counterexample :
    query testO testCfg ⟨none, []⟩ true "草津アクセス" 1
      = Except.ok (testQueryDict, testQueryState)
  ∧ pyLookup testQueryDict "source_documents" = some (PyValue.docs [testDoc])
  ∧ [testDoc].length = 1
  ∧ testQueryDict.all (fun p => !(isNums p.2)) = true :=
  ⟨testQuery_eval, by decide, rfl, by decide⟩

/-- C1 (amended): once data is loaded, `query` returns the selected chunks
under `source_documents` together with a parallel list of chunk-identifier
strings under `chunk_ids`, one identifier per returned chunk (so a
1-chunk result has a `chunk_ids` list of length 1); no numeric score list
is part of the returned dict.  Stated as an invariant: every cached result
is well-formed and every returned result is well-formed. -/
theorem query_chunk_ids_parallel (o : Oracles) (cfg : Config) (st : RagState)
    (question : String) (k : Nat) (d : PyDict) (st' : RagState)
    (hwf : ∀ p ∈ st.cache, WFDict p.2.result)
    (h : query o cfg st true question k = Except.ok (d, st')) :
    WFDict d ∧ ∀ p ∈ st'.cache, WFDict p.2.result := by
  simp only [query, Bool.not_true] at h
  rw [if_neg (by simp)] at h
  cases hg : (getFromCache st.cache (cacheKey question k) o.now).1 with
  | some cached =>
    rw [hg] at h
    simp only [Except.ok.injEq, Prod.mk.injEq] at h
    obtain ⟨rfl, rfl⟩ := h
    constructor
    · obtain ⟨e, he, her⟩ := getFromCache_fst_some hg
      exact her ▸ hwf _ (pyLookup_mem he)
    · intro p hp
      exact hwf p (mem_getFromCache_snd hp)
  | none =>
    rw [hg] at h
    simp only [Except.ok.injEq, Prod.mk.injEq] at h
    obtain ⟨rfl, rfl⟩ := h
    have hwfd : WFDict
        [("result", PyValue.str (pyStrip (o.stripIds (o.llmAnswer
            (if (hybridSearch o cfg st.last question k).docs = []
             then "（該当する文脈なし）"
             else String.intercalate "\n\n---\n\n"
               (((hybridSearch o cfg st.last question k).docs).map
                 (fun d => d.page_content))) question)))),
         ("source_documents", PyValue.docs (hybridSearch o cfg st.last question k).docs),
         ("chunk_ids", PyValue.strs (chunkIdsOf (hybridSearch o cfg st.last question k).docs 0))] := by
      refine ⟨(hybridSearch o cfg st.last question k).docs,
        chunkIdsOf (hybridSearch o cfg st.last question k).docs 0, ?_, ?_, ?_⟩
      · simp [pyLookup]
      · simp [pyLookup]
      · exact length_chunkIdsOf _ 0
    refine ⟨hwfd, ?_⟩
    intro p hp
    rcases mem_putToCache hp with hp | rfl
    · exact hwf p (mem_getFromCache_snd hp)
    · exact hwfd

/-- Witness for C1 (amended): the concrete query result and end state are
well-formed. -/
theorem query_chunk_ids_parallel_witness :
    WFDict testQueryDict ∧ ∀ p ∈ testQueryState.cache, WFDict p.2.result :=
  query_chunk_ids_parallel testO testCfg ⟨none, []⟩ "草津アクセス" 1
    testQueryDict testQueryState (by simp) testQuery_eval

/-- Every successfully parsed judgment line carries a score clamped to
`[0, 10]`. -/
theorem parseLine_clamped {pf : String → Option ℚ} {line : String}
    {p : String × ℚ} (h : parseLine pf line = some p) : 0 ≤ p.2 ∧ p.2 ≤ 10 := by
  unfold parseLine at h
  by_cases hlen : (pySplitOn ':' (pyStrip line)).length < 2
  · simp [hlen] at h
  · simp only [hlen, if_false, reduceIte] at h
    cases hpf : pf (pyStrip (((pySplitOn ':' (pyStrip line)).getLast?).getD "")) with
    | none => rw [hpf] at h; simp at h
    | some v =>
      rw [hpf] at h
      simp only [Option.some.injEq] at h
      subst h
      constructor
      · exact le_max_left 0 _
      · exact max_le (by norm_num) (le_trans (min_le_left 10 v) le_rfl)

/-- Every binding of the parsed `llm_scores` dict comes from some line of
the response that parses under `parseLine`. -/
theorem parseLLMScores_mem {pf : String → Option ℚ} {response : String}
    {p : String × ℚ} (h : p ∈ parseLLMScores pf response) :
    ∃ line ∈ pySplitOn '\n' (pyStrip response), parseLine pf line = some p := by
  unfold parseLLMScores at h
  suffices hgen : ∀ (lines : List String) (init : List (String × ℚ)),
      p ∈ lines.foldl (fun m line =>
        match parseLine pf line with
        | some q => pyAssign m q.1 q.2
        | none => m) init →
      p ∈ init ∨ ∃ line ∈ lines, parseLine pf line = some p by
    rcases hgen _ [] h with h | h
    · simp at h
    · exact h
  intro lines
  induction lines with
  | nil => intro init h; exact Or.inl h
  | cons l ls ih =>
    intro init h
    rcases ih _ h with h | ⟨line, hline, hp⟩
    · cases hl : parseLine pf l with
      | none => simp only [hl] at h; exact Or.inl h
      | some q =>
        simp only [hl] at h
        rcases mem_pyAssign h with h | rfl
        · exact Or.inl h
        · exact Or.inr ⟨l, List.mem_cons_self _ _, by rw [hl]⟩
    · exact Or.inr ⟨line, List.mem_cons_of_mem _ hline, hp⟩

/-- C8: the judgment-extraction stage never fails the query.  A failed
judgment call falls back to the first `top_n` candidates (in the incoming
rerank order, hence top by rerank score) with judgment score `0`; a line
of the response without a colon is skipped; every parsed score is clamped
to `[0, 10]`; a candidate whose identifier is absent from the parsed
response is joined with judgment score `0`; and every extracted candidate
ends with a judgment score in `[0, 10]`, in a list of at most `top_n`
entries. -/
theorem llm_extract_graceful (o : Oracles) (question : String)
    (scored : List (Document × ℚ)) (top_n : Nat) :
    (o.llmJudge question (candidatesText scored) = none →
      llmExtractCandidates o question scored top_n
        = (scored.take top_n).map (fun p => (p.1, p.2, 0)))
  ∧ (∀ pf response p, p ∈ parseLLMScores pf response → 0 ≤ p.2 ∧ p.2 ≤ 10)
  ∧ (∀ pf response p, p ∈ parseLLMScores pf response →
      ∃ line ∈ pySplitOn '\n' (pyStrip response), parseLine pf line = some p)
  ∧ (∀ pf line, (pySplitOn ':' (pyStrip line)).length < 2 → parseLine pf line = none)
  ∧ (∀ (m : List (String × ℚ)) q, q ∈ docMapOf scored → pyLookup m q.1 = none →
      (q.2.1, q.2.2, (0 : ℚ)) ∈ llmScoresJoin m (docMapOf scored))
  ∧ (∀ t ∈ llmExtractCandidates o question scored top_n,
      0 ≤ t.2.2 ∧ t.2.2 ≤ 10)
  ∧ (llmExtractCandidates o question scored top_n).length ≤ top_n := by
  refine ⟨?_, ?_, ?_, ?_, ?_, ?_, ?_⟩
  · intro hj
    by_cases hs : scored = []
    · simp [llmExtractCandidates, hs]
    · simp [llmExtractCandidates, hs, hj]
  · intro pf response p hp
    obtain ⟨line, -, hline⟩ := parseLLMScores_mem hp
    exact parseLine_clamped hline
  · intro pf response p hp
    exact parseLLMScores_mem hp
  · intro pf line hlen
    simp [parseLine, hlen]
  · intro m q hq hnone
    refine List.mem_map.2 ⟨q, hq, ?_⟩
    rw [hnone]
    rfl
  · intro t ht
    by_cases hs : scored = []
    · simp [llmExtractCandidates, hs] at ht
    · cases hj : o.llmJudge question (candidatesText scored) with
      | none =>
        simp only [llmExtractCandidates, hs, hj, if_false, reduceIte] at ht
        rcases List.mem_map.1 ht with ⟨p, -, rfl⟩
        norm_num
      | some response =>
        simp only [llmExtractCandidates, hs, hj, if_false, reduceIte] at ht
        have ht1 := List.take_subset _ _ ht
        have ht2 := (List.mem_insertionSort _).1 ht1
        rcases List.mem_map.1 ht2 with ⟨q, -, rfl⟩
        cases hl : pyLookup (parseLLMScores o.parseFloat response) q.1 with
        | none => simp [hl]
        | some v =>
          obtain ⟨line, -, hline⟩ := parseLLMScores_mem (pyLookup_mem hl)
          have := parseLine_clamped hline
          simpa [hl] using this
  · by_cases hs : scored = []
    · simp [llmExtractCandidates, hs]
    · cases hj : o.llmJudge question (candidatesText scored) with
      | none =>
        simp only [llmExtractCandidates, hs, hj, if_false, reduceIte]
        rw [List.length_map]
        exact le_trans (List.length_take_le _ _) le_rfl
      | some response =>
        simp only [llmExtractCandidates, hs, hj, if_false, reduceIte]
        exact List.length_take_le _ _

/-- Witness for C8: a concrete failed call falls back to top-2 with zero
scores; a concrete response parses with clamping to 10, a colon-free line
skipped, and a missing identifier joined as 0. -/
theorem llm_extract_graceful_witness :
    llmExtractCandidates testO "q" [(testDoc, 5), (testDoc, 3), (testDoc, 1)] 2
      = ([(testDoc, 5), (testDoc, 3)].map (fun p => (p.1, p.2, 0)))
  ∧ (0 ≤ (10 : ℚ) ∧ (10 : ℚ) ≤ 10)
  ∧ parseLine (fun _ => some 15) "junk" = none
  ∧ ((testDoc, (5 : ℚ), (0 : ℚ))
      ∈ llmScoresJoin [] (docMapOf [(testDoc, 5)])) :=
  ⟨(llm_extract_graceful testO "q" [(testDoc, 5), (testDoc, 3), (testDoc, 1)] 2).1 rfl,
   (llm_extract_graceful testO "q" [] 0).2.1 (fun _ => some 15) "a:15"
     ("a", 10) (by decide),
   (llm_extract_graceful testO "q" [] 0).2.2.2.1 (fun _ => some 15) "junk" (by decide),
   (llm_extract_graceful testO "q" [(testDoc, 5)] 1).2.2.2.2.1 [] ("kusatsu_001", testDoc, 5)
     (by decide) rfl⟩

/-- Folded minimum is below its initial accumulator. -/
theorem foldl_min_le_init (l : List ℚ) (a : ℚ) : l.foldl min a ≤ a := by
  induction l generalizing a with
  | nil => simp
  | cons x xs ih =>
    exact le_trans (ih (min a x)) (min_le_left a x)

/-- Folded minimum is below every list element. -/
theorem foldl_min_le_mem {l : List ℚ} {x : ℚ} (hx : x ∈ l) (a : ℚ) :
    l.foldl min a ≤ x := by
  induction l generalizing a with
  | nil => simp at hx
  | cons y ys ih =>
    rcases List.mem_cons.1 hx with rfl | hx
    · exact le_trans (foldl_min_le_init ys (min a x)) (min_le_right a x)
    · exact ih hx _

/-- Python `min` of a nonempty list bounds every element from below. -/
theorem pyMin_le {l : List ℚ} {x : ℚ} (hx : x ∈ l) : pyMin l ≤ x := by
  cases l with
  | nil => simp at hx
  | cons y ys =>
    rcases List.mem_cons.1 hx with rfl | hx
    · exact foldl_min_le_init ys x
    · exact foldl_min_le_mem hx y

/-- Folded maximum is above its initial accumulator. -/
theorem le_foldl_max_init (l : List ℚ) (a : ℚ) : a ≤ l.foldl max a := by
  induction l generalizing a with
  | nil => simp
  | cons x xs ih =>
    exact le_trans (le_max_left a x) (ih (max a x))

/-- Folded maximum is above every list element. -/
theorem le_foldl_max_mem {l : List ℚ} {x : ℚ} (hx : x ∈ l) (a : ℚ) :
    x ≤ l.foldl max a := by
  induction l generalizing a with
  | nil => simp at hx
  | cons y ys ih =>
    rcases List.mem_cons.1 hx with rfl | hx
    · exact le_trans (le_max_right a x) (le_foldl_max_init ys (max a x))
    · exact ih hx _

/-- Python `max` of a nonempty list bounds every element from above. -/
theorem le_pyMax {l : List ℚ} {x : ℚ} (hx : x ∈ l) : x ≤ pyMax l := by
  cases l with
  | nil => simp at hx
  | cons y ys =>
    rcases List.mem_cons.1 hx with rfl | hx
    · exact le_foldl_max_init ys x
    · exact le_foldl_max_mem hx y

/-- C10: when every candidate's judgment score is `0` (the LLM-skip path
and the failed-call path both produce this), `_final_selection` returns
exactly the first `top_k` gate survivors in stable descending
CrossEncoder-score order: the combined score
`ce_weight * norm_rerank + llm_weight * 0` induces the same ordering as
the raw rerank score. -/
theorem final_selection_zero_llm_order (candidates : List (Document × ℚ × ℚ))
    (top_k : Nat) (cw lw : ℚ) (hcw : 0 < cw)
    (h0 : ∀ c ∈ candidates, c.2.2 = 0) :
    finalSelection candidates top_k cw lw
      = ((List.insertionSort (fun a b => b.2.1 ≤ a.2.1)
            (confGate candidates)).take top_k).map (fun c => c.1)
  ∧ List.Sorted (fun a b => b.2.1 ≤ a.2.1)
      (List.insertionSort (fun a b => b.2.1 ≤ a.2.1) (confGate candidates)) := by
  have hsorted : List.Sorted (fun a b => b.2.1 ≤ a.2.1)
      (List.insertionSort (fun a b => b.2.1 ≤ a.2.1) (confGate candidates)) := by
    haveI : IsTotal (Document × ℚ × ℚ) (fun a b => b.2.1 ≤ a.2.1) :=
      ⟨fun a b => le_total b.2.1 a.2.1⟩
    haveI : IsTrans (Document × ℚ × ℚ) (fun a b => b.2.1 ≤ a.2.1) :=
      ⟨fun _ _ _ h1 h2 => le_trans h2 h1⟩
    exact List.sorted_insertionSort _ _
  refine ⟨?_, hsorted⟩
  by_cases hc : candidates = []
  · simp [finalSelection, hc, confGate]
  · by_cases hcf : confGate candidates = []
    · simp [finalSelection, hc, hcf]
    · simp only [finalSelection, hc, hcf, if_false, reduceIte]
      set confident := confGate candidates with hconf
      set mn := pyMin (confident.map (fun c => c.2.1)) with hmn
      set mx := pyMax (confident.map (fun c => c.2.1)) with hmx
      set rg : ℚ := if mx ≠ mn then mx - mn else 1 with hrg
      have hrgpos : 0 < rg := by
        rw [hrg]
        by_cases hne : mx ≠ mn
        · rw [if_pos hne]
          obtain ⟨c0, hc0⟩ := List.exists_mem_of_ne_nil confident hcf
          have h1 : mn ≤ c0.2.1 := pyMin_le (List.mem_map_of_mem _ hc0)
          have h2 : c0.2.1 ≤ mx := le_pyMax (List.mem_map_of_mem _ hc0)
          have : mn ≤ mx := le_trans h1 h2
          exact sub_pos.2 (lt_of_le_of_ne this (Ne.symm hne))
        · rw [if_neg hne]; norm_num
      have hmem0 : ∀ c ∈ confident, c.2.2 = 0 := by
        intro c hcmem
        exact h0 c (List.mem_of_mem_filter hcmem)
      have hmapeq : confident.map
            (fun c => (c, cw * ((c.2.1 - mn) / rg) + lw * (c.2.2 / 10)))
          = confident.map (fun c => (c, cw * ((c.2.1 - mn) / rg))) := by
        apply List.map_congr_left
        intro c hcmem
        rw [hmem0 c hcmem]
        norm_num
      have hmono : ∀ a ∈ confident, ∀ b ∈ confident,
          (fun a b => b.2.1 ≤ a.2.1) a b ↔
          (fun p q => q.2 ≤ p.2) ((fun c => (c, cw * ((c.2.1 - mn) / rg))) a)
            ((fun c => (c, cw * ((c.2.1 - mn) / rg))) b) := by
        intro a _ b _
        simp only
        rw [mul_le_mul_left hcw, div_le_div_iff_of_pos_right hrgpos,
          sub_le_sub_iff_right]
      rw [hmapeq,
        ← List.map_insertionSort (fun a b => b.2.1 ≤ a.2.1)
          (fun p q => q.2 ≤ p.2) (fun c => (c, cw * ((c.2.1 - mn) / rg)))
          confident hmono,
        ← List.map_take, List.map_map]
      apply List.map_congr_left
      intro c _
      rfl

/-- Witness for C10: with all judgment scores `0`, selection returns the
gate survivors sorted by CrossEncoder score (truncated to `top_k`), here
computed concretely. -/
theorem final_selection_zero_llm_order_witness :
    finalSelection [(testDoc, 1, 0), (testDoc, -5, 0), (testDoc, 2, 0)] 2 (2/5) (3/5)
      = ((List.insertionSort (fun a b => b.2.1 ≤ a.2.1)
            (confGate [(testDoc, (1 : ℚ), (0 : ℚ)), (testDoc, -5, 0),
              (testDoc, 2, 0)])).take 2).map (fun c => c.1)
  ∧ List.Sorted (fun a b => b.2.1 ≤ a.2.1)
      (List.insertionSort (fun a b => b.2.1 ≤ a.2.1)
        (confGate [(testDoc, (1 : ℚ), (0 : ℚ)), (testDoc, -5, 0), (testDoc, 2, 0)])) :=
  final_selection_zero_llm_order
    [(testDoc, 1, 0), (testDoc, -5, 0), (testDoc, 2, 0)] 2 (2/5) (3/5)
    (by norm_num) (by decide)

/-- A content absent from a ranked list is untouched by its RRF pass. -/
theorem rrfFold_lookup_not_mem (w : ℚ) (docs : List Document) (rank : Nat)
    (scores : List (String × ℚ)) (c : String)
    (hc : c ∉ docs.map Document.page_content) :
    pyLookup (rrfFold w docs rank scores) c = pyLookup scores c := by
  revert hc
  induction docs generalizing rank scores with
  | nil => intro _; rfl
  | cons d ds ih =>
    intro hc
    simp only [List.map_cons, List.mem_cons, not_or] at hc
    rw [rrfFold, ih _ _ hc.2, pyLookup_pyAssign, if_neg hc.1]

/-- A content of a duplicate-free ranked list receives exactly
`w / (rank + its 0-based index + RRF_K)` from that list's RRF pass. -/
theorem rrfFold_lookup_mem (w : ℚ) (docs : List Document) (rank : Nat)
    (scores : List (String × ℚ)) (c : String)
    (hnd : (docs.map Document.page_content).Nodup)
    (hc : c ∈ docs.map Document.page_content) :
    pyLookup (rrfFold w docs rank scores) c
      = some ((pyLookup scores c).getD 0
          + w / ((rank : ℚ) + (((docs.map Document.page_content).indexOf c : ℕ) : ℚ)
              + (RRF_K : ℚ))) := by
  revert hnd hc
  induction docs generalizing rank scores with
  | nil => intro _ hc; simp at hc
  | cons d ds ih =>
    intro hnd hc
    simp only [List.map_cons, List.nodup_cons] at hnd
    rw [rrfFold]
    by_cases hcd : c = d.page_content
    · subst hcd
      rw [rrfFold_lookup_not_mem _ _ _ _ _ hnd.1, pyLookup_pyAssign, if_pos rfl,
        List.map_cons, List.indexOf_cons_self]
      push_cast
      ring_nf
    · have hcds : c ∈ ds.map Document.page_content := by
        rcases List.mem_cons.1 hc with h | h
        · exact absurd h hcd
        · exact h
      rw [ih _ _ hnd.2 hcds, pyLookup_pyAssign, if_neg hcd,
        List.map_cons, List.indexOf_cons_ne _ (fun h => hcd h.symm)]
      push_cast
      ring_nf

/-- The fused RRF score of any content, in closed form: the sum over the
(duplicate-free) ranked lists it appears in of
`list_weight / (0-based rank + 60)`. -/
theorem scoreOf_formula (sw : ℚ) (sem bm : List Document)
    (hs : (sem.map Document.page_content).Nodup)
    (hb : (bm.map Document.page_content).Nodup) (c : String) :
    scoreOf sw sem bm c
      = (if c ∈ sem.map Document.page_content
          then sw / ((((sem.map Document.page_content).indexOf c : ℕ) : ℚ) + 60) else 0)
      + (if c ∈ bm.map Document.page_content
          then keywordWeight sw / ((((bm.map Document.page_content).indexOf c : ℕ) : ℚ) + 60)
          else 0) := by
  unfold scoreOf docScores
  by_cases hcb : c ∈ bm.map Document.page_content
  · rw [rrfFold_lookup_mem _ _ _ _ _ hb hcb]
    by_cases hcs : c ∈ sem.map Document.page_content
    · rw [rrfFold_lookup_mem _ _ _ _ _ hs hcs, if_pos hcs, if_pos hcb]
      simp [pyLookup, RRF_K]
      try push_cast
      try ring
    · rw [rrfFold_lookup_not_mem _ _ _ _ _ hcs, if_neg hcs, if_pos hcb]
      simp [pyLookup, RRF_K]
      try push_cast
      try ring
  · rw [rrfFold_lookup_not_mem _ _ _ _ _ hcb]
    by_cases hcs : c ∈ sem.map Document.page_content
    · rw [rrfFold_lookup_mem _ _ _ _ _ hs hcs, if_pos hcs, if_neg hcb]
      simp [pyLookup, RRF_K]
      try push_cast
      try ring
    · rw [rrfFold_lookup_not_mem _ _ _ _ _ hcs, if_neg hcs, if_neg hcb]
      simp [pyLookup]

/-- The head of a list is a member at index 0. -/
theorem head?_mem_indexOf {l : List String} {a : String} (h : l.head? = some a) :
    a ∈ l ∧ l.indexOf a = 0 := by
  cases l with
  | nil => simp at h
  | cons x t =>
    simp only [List.head?, Option.some.injEq] at h
    subst h
    exact ⟨List.mem_cons_self _ _, List.indexOf_cons_self _ _⟩

/-- C3: rank-based fusion scores each content as the sum over the ranked
lists it appears in of `list_weight / (0-based rank + 60)`, the semantic
and keyword weights summing to `1`; the fused contents are sorted by
descending fused score; and with both weights positive, the chunk at rank
0 of both lists strictly dominates every chunk appearing in only one of
the two (duplicate-free) lists. -/
theorem rrf_fusion_rank0_dominance (sw : ℚ) (semantic_docs bm25_docs : List Document)
    (hs : (semantic_docs.map Document.page_content).Nodup)
    (hb : (bm25_docs.map Document.page_content).Nodup) :
    keywordWeight sw + sw = 1
  ∧ (∀ c, scoreOf sw semantic_docs bm25_docs c
      = (if c ∈ semantic_docs.map Document.page_content
          then sw / ((((semantic_docs.map Document.page_content).indexOf c : ℕ) : ℚ) + 60)
          else 0)
      + (if c ∈ bm25_docs.map Document.page_content
          then keywordWeight sw
            / ((((bm25_docs.map Document.page_content).indexOf c : ℕ) : ℚ) + 60)
          else 0))
  ∧ List.Sorted (fun a b => scoreOf sw semantic_docs bm25_docs b
        ≤ scoreOf sw semantic_docs bm25_docs a)
      (sortedContents sw semantic_docs bm25_docs)
  ∧ (∀ c0 c, 0 < sw → sw < 1 →
      (semantic_docs.map Document.page_content).head? = some c0 →
      (bm25_docs.map Document.page_content).head? = some c0 →
      ((c ∈ semantic_docs.map Document.page_content
          ∧ c ∉ bm25_docs.map Document.page_content)
        ∨ (c ∉ semantic_docs.map Document.page_content
          ∧ c ∈ bm25_docs.map Document.page_content)) →
      scoreOf sw semantic_docs bm25_docs c < scoreOf sw semantic_docs bm25_docs c0) := by
  refine ⟨by unfold keywordWeight; ring, scoreOf_formula sw _ _ hs hb, ?_, ?_⟩
  · unfold sortedContents
    haveI : IsTotal String (fun a b => scoreOf sw semantic_docs bm25_docs b
        ≤ scoreOf sw semantic_docs bm25_docs a) :=
      ⟨fun a b => le_total _ _⟩
    haveI : IsTrans String (fun a b => scoreOf sw semantic_docs bm25_docs b
        ≤ scoreOf sw semantic_docs bm25_docs a) :=
      ⟨fun _ _ _ h1 h2 => le_trans h2 h1⟩
    exact List.sorted_insertionSort _ _
  · intro c0 c hsw0 hsw1 hhs hhb hxor
    obtain ⟨hc0s, hidx0s⟩ := head?_mem_indexOf hhs
    obtain ⟨hc0b, hidx0b⟩ := head?_mem_indexOf hhb
    have hscore0 : scoreOf sw semantic_docs bm25_docs c0 = 1 / 60 := by
      rw [scoreOf_formula sw _ _ hs hb, if_pos hc0s, if_pos hc0b, hidx0s, hidx0b]
      unfold keywordWeight
      push_cast
      ring
    rw [hscore0, scoreOf_formula sw _ _ hs hb]
    rcases hxor with ⟨hcs, hcb⟩ | ⟨hcs, hcb⟩
    · rw [if_pos hcs, if_neg hcb, add_zero]
      set i : ℕ := (semantic_docs.map Document.page_content).indexOf c with hi
      have hden : (0 : ℚ) < (i : ℚ) + 60 := by positivity
      rw [div_lt_div_iff hden (by norm_num : (0 : ℚ) < 60)]
      have hcast : (0 : ℚ) ≤ (i : ℚ) := Nat.cast_nonneg i
      nlinarith
    · rw [if_neg hcs, if_pos hcb, zero_add]
      set i : ℕ := (bm25_docs.map Document.page_content).indexOf c with hi
      have hden : (0 : ℚ) < (i : ℚ) + 60 := by positivity
      rw [div_lt_div_iff hden (by norm_num : (0 : ℚ) < 60)]
      have hcast : (0 : ℚ) ≤ (i : ℚ) := Nat.cast_nonneg i
      unfold keywordWeight
      nlinarith

/-- Witness for C3 at the concrete lists `[a, b]` and `[a, c]` with
`semantic_weight = 1/2`: weights sum to `1`, the closed-form score of `b`,
sortedness, and strict dominance of the rank-0-in-both content `a`. -/
theorem rrf_fusion_rank0_dominance_witness :
    keywordWeight (1/2) + 1/2 = 1
  ∧ scoreOf (1/2) [⟨"a", none, none, none⟩, ⟨"b", none, none, none⟩]
      [⟨"a", none, none, none⟩, ⟨"c", none, none, none⟩] "b"
      = (if "b" ∈ ([⟨"a", none, none, none⟩,
            (⟨"b", none, none, none⟩ : Document)].map Document.page_content)
          then (1/2) / ((((([⟨"a", none, none, none⟩,
            (⟨"b", none, none, none⟩ : Document)].map
              Document.page_content).indexOf "b" : ℕ) : ℚ)) + 60) else 0)
      + (if "b" ∈ ([⟨"a", none, none, none⟩,
            (⟨"c", none, none, none⟩ : Document)].map Document.page_content)
          then keywordWeight (1/2) / ((((([⟨"a", none, none, none⟩,
            (⟨"c", none, none, none⟩ : Document)].map
              Document.page_content).indexOf "b" : ℕ) : ℚ)) + 60) else 0)
  ∧ List.Sorted (fun a b =>
      scoreOf (1/2) [⟨"a", none, none, none⟩, ⟨"b", none, none, none⟩]
        [⟨"a", none, none, none⟩, ⟨"c", none, none, none⟩] b
      ≤ scoreOf (1/2) [⟨"a", none, none, none⟩, ⟨"b", none, none, none⟩]
        [⟨"a", none, none, none⟩, ⟨"c", none, none, none⟩] a)
      (sortedContents (1/2) [⟨"a", none, none, none⟩, ⟨"b", none, none, none⟩]
        [⟨"a", none, none, none⟩, ⟨"c", none, none, none⟩])
  ∧ scoreOf (1/2) [⟨"a", none, none, none⟩, ⟨"b", none, none, none⟩]
      [⟨"a", none, none, none⟩, ⟨"c", none, none, none⟩] "b"
    < scoreOf (1/2) [⟨"a", none, none, none⟩, ⟨"b", none, none, none⟩]
      [⟨"a", none, none, none⟩, ⟨"c", none, none, none⟩] "a" :=
  ⟨(rrf_fusion_rank0_dominance (1/2)
      [⟨"a", none, none, none⟩, ⟨"b", none, none, none⟩]
      [⟨"a", none, none, none⟩, ⟨"c", none, none, none⟩]
      (by decide) (by decide)).1,
   (rrf_fusion_rank0_dominance (1/2)
      [⟨"a", none, none, none⟩, ⟨"b", none, none, none⟩]
      [⟨"a", none, none, none⟩, ⟨"c", none, none, none⟩]
      (by decide) (by decide)).2.1 "b",
   (rrf_fusion_rank0_dominance (1/2)
      [⟨"a", none, none, none⟩, ⟨"b", none, none, none⟩]
      [⟨"a", none, none, none⟩, ⟨"c", none, none, none⟩]
      (by decide) (by decide)).2.2.1,
   (rrf_fusion_rank0_dominance (1/2)
      [⟨"a", none, none, none⟩, ⟨"b", none, none, none⟩]
      [⟨"a", none, none, none⟩, ⟨"c", none, none, none⟩]
      (by decide) (by decide)).2.2.2 "a" "b" (by norm_num) (by norm_num)
      (by decide) (by decide) (Or.inl ⟨by decide, by decide⟩)⟩
